import Mathlib

set_option maxRecDepth 100000

/-!
Verification of the Card-Vision statement-extraction engine (src/main.py).

The engine is a library of ordered regular-expression extractors over a text
blob.  We shallowly embed it: regular expressions from the source are
deep-embedded as `RE` terms (one definition per source pattern, each annotated
with the original pattern string), and a backtracking matcher `mrun`
reproduces the semantics of Python's `re` module for the constructs the
source uses (character classes, greedy and lazy repetition, alternation,
capture groups, `re.IGNORECASE`, leftmost `re.search`, non-overlapping
`re.findall`).  Case folding and the `\s`, `\d` classes are modelled over
ASCII, which covers the character sets the source's patterns constrain.
The matcher takes a fuel argument for structural termination; the wrappers
supply fuel exceeding the matcher's real recursion depth, which is bounded
by the lexicographic measure (length of the remaining text, size of the
regular expression): every recursive call either strictly shortens the text
(star iterations consume at least one character) or strictly shrinks the
regular expression while never lengthening the text.
-/

/-- ASCII upper/lower case pairs, used to model Python case folding
(`str.lower`, `re.IGNORECASE`) on the ASCII range. -/
def caseTable : List (Char × Char) :=
  [('A', 'a'), ('B', 'b'), ('C', 'c'), ('D', 'd'), ('E', 'e'), ('F', 'f'),
   ('G', 'g'), ('H', 'h'), ('I', 'i'), ('J', 'j'), ('K', 'k'), ('L', 'l'),
   ('M', 'm'), ('N', 'n'), ('O', 'o'), ('P', 'p'), ('Q', 'q'), ('R', 'r'),
   ('S', 's'), ('T', 't'), ('U', 'u'), ('V', 'v'), ('W', 'w'), ('X', 'x'),
   ('Y', 'y'), ('Z', 'z')]

/-- ASCII lower-casing of one character (model of Python `str.lower`). -/
def lowerChar (c : Char) : Char :=
  (((caseTable.find? (fun p => p.1 == c)).map (fun p => p.2)).getD c)

/-- ASCII upper-casing of one character. -/
def upperChar (c : Char) : Char :=
  (((caseTable.find? (fun p => p.2 == c)).map (fun p => p.1)).getD c)

/-- The characters Python `str.strip` and the regex class `\s` treat as
whitespace (ASCII part). -/
def isPySpace (c : Char) : Bool :=
  c == ' ' || c == '\t' || c == '\n' || c == '\r' || c == '\x0b' || c == '\x0c'

/-- Python `str.strip`: drop whitespace from both ends. -/
def pyStrip (l : List Char) : List Char :=
  ((l.dropWhile isPySpace).reverse.dropWhile isPySpace).reverse

/-- `needle` occurs as a contiguous sublist of `hay` (Python's `in` on
strings). -/
def startsList : List Char → List Char → Bool
  | [], _ => true
  | _ :: _, [] => false
  | a :: as, b :: bs => a == b && startsList as bs

/-- Substring containment, scanning every position (Python `needle in hay`). -/
def subIn (needle : List Char) : List Char → Bool
  | [] => startsList needle []
  | b :: bs => startsList needle (b :: bs) || subIn needle bs

/-- One item of a regex character class: a single character or a range. -/
inductive CItem where
  | ch (c : Char)
  | range (lo hi : Char)
deriving DecidableEq

/-- Deep embedding of the regex constructs used by src/main.py.
`cls neg items` is a character class (`neg` for a negated class, used for
`.` = "any char but newline"); `star lzy r` is `r*` (greedy when `lzy` is
false, lazy when true); `group i r` is the capturing group number `i`. -/
inductive RE where
  | eps
  | cls (neg : Bool) (items : List CItem)
  | seq (a b : RE)
  | alt (a b : RE)
  | star (lzy : Bool) (r : RE)
  | group (i : Nat) (r : RE)
deriving DecidableEq

/-- Size of a regex term, used to compute sufficient matcher fuel. -/
def reSize : RE → Nat
  | .eps => 1
  | .cls _ _ => 1
  | .seq a b => reSize a + reSize b + 1
  | .alt a b => reSize a + reSize b + 1
  | .star _ r => reSize r + 1
  | .group _ r => reSize r + 1

/-- Does `c` belong to the (non-negated) class item list? -/
def inItems (c : Char) : List CItem → Bool
  | [] => false
  | .ch d :: rest => c == d || inItems c rest
  | .range lo hi :: rest => (decide (lo ≤ c) && decide (c ≤ hi)) || inItems c rest

/-- Character-class test; with `ic` (IGNORECASE) a character matches if it or
one of its case variants is in the class, as in Python `re`. -/
def clsMatch (ic : Bool) (neg : Bool) (items : List CItem) (c : Char) : Bool :=
  let hit :=
    if ic then inItems c items || inItems (lowerChar c) items || inItems (upperChar c) items
    else inItems c items
  if neg then !hit else hit

/-- Capture environment: list of (group number, captured characters). -/
abbrev Caps := List (Nat × List Char)

/-- Backtracking matcher.  `mrun ic fuel re s` returns, in backtracking
priority order (Python's order: first element is what `re` produces), the
list of `(captures, remaining suffix)` for every way `re` can match a prefix
of `s`.  A star iteration must consume at least one character (Python stops
a repetition that matches the empty string), and the capture of a group is
the consumed prefix.  `fuel` only bounds the recursion depth; callers pass
more fuel than the depth bound `(s.length+1)*(reSize re+1)`. -/
def mrun (ic : Bool) : Nat → RE → List Char → List (Caps × List Char)
  | 0, _, _ => []
  | _ + 1, .eps, s => [([], s)]
  | _ + 1, .cls _ _, [] => []
  | _ + 1, .cls neg items, c :: t => if clsMatch ic neg items c then [([], t)] else []
  | fuel + 1, .seq a b, s =>
      (mrun ic fuel a s).flatMap (fun x =>
        (mrun ic fuel b x.2).map (fun y => (x.1 ++ y.1, y.2)))
  | fuel + 1, .alt a b, s => mrun ic fuel a s ++ mrun ic fuel b s
  | fuel + 1, .star lzy r, s =>
      let step := (mrun ic fuel r s).flatMap (fun x =>
        if x.2.length < s.length then
          (mrun ic fuel (.star lzy r) x.2).map (fun y => (x.1 ++ y.1, y.2))
        else [])
      if lzy then ([], s) :: step else step ++ [([], s)]
  | fuel + 1, .group i r, s =>
      (mrun ic fuel r s).map (fun x => (x.1 ++ [(i, s.take (s.length - x.2.length))], x.2))

/-- Run the matcher with sufficient fuel at one position. -/
def mrunTop (ic : Bool) (re : RE) (s : List Char) : List (Caps × List Char) :=
  mrun ic ((s.length + 1) * (reSize re + 1)) re s

/-- Python `re.search`: try each start position left to right; the first
position where the pattern matches wins, and there the backtracking-first
result is produced.  Returns `(captures, matched text, suffix after the
match)`. -/
def searchA (ic : Bool) (re : RE) : List Char → Option (Caps × List Char × List Char)
  | [] =>
      match mrunTop ic re [] with
      | x :: _ => some (x.1, [], x.2)
      | [] => none
  | c :: t =>
      match mrunTop ic re (c :: t) with
      | x :: _ => some (x.1, (c :: t).take ((c :: t).length - x.2.length), x.2)
      | [] => searchA ic re t

/-- Python `re.findall`: repeated non-overlapping leftmost search; after an
empty match the scan advances one character. -/
def findallAux (ic : Bool) (re : RE) : Nat → List Char → List Caps
  | 0, _ => []
  | fuel + 1, s =>
      match searchA ic re s with
      | none => []
      | some (cp, m, rest) =>
          match m with
          | _ :: _ => cp :: findallAux ic re fuel rest
          | [] =>
              match rest with
              | [] => [cp]
              | _ :: r2 => cp :: findallAux ic re fuel r2

/-- All matches of `re` in `s`, in document order. -/
def findall (ic : Bool) (re : RE) (s : List Char) : List Caps :=
  findallAux ic re (s.length + 1) s

/-- The `for pattern in patterns: if re.search(...)` loop shared by all the
field extractors: captures of the first pattern that matches anywhere. -/
def firstMatch (ic : Bool) : List RE → List Char → Option Caps
  | [], _ => none
  | p :: rest, s =>
      match searchA ic p s with
      | some (cp, _, _) => some cp
      | none => firstMatch ic rest s

/-- `match.group i`: the capture of group `i` (empty if absent; every use in
the source is on a group that participated in the match). -/
def lookupCap (cp : Caps) (i : Nat) : Option (List Char) :=
  (cp.find? (fun e => e.1 == i)).map (fun e => e.2)

/-- Capture of group `i`, defaulting to the empty list. -/
def getCap (cp : Caps) (i : Nat) : List Char :=
  (lookupCap cp i).getD []

/-- `match.lastindex`: the highest group number that participated (in the
source's period patterns the groups participate in increasing order, so the
maximum key coincides with Python's last-matched group). -/
def lastIdx (cp : Caps) : Nat :=
  cp.foldl (fun m e => max m e.1) 0

/-! ### Regex notation helpers (combinators used to transcribe the source's
pattern strings; each pattern definition below carries the original Python
pattern in its comment) -/

/-- A literal character (a one-character class). -/
def rch (c : Char) : RE := .cls false [.ch c]

/-- A literal character list, `c₁c₂…` as `seq`s ending in `eps`. -/
def rstrL : List Char → RE
  | [] => .eps
  | c :: cs => .seq (rch c) (rstrL cs)

/-- A literal string. -/
def rstr (s : String) : RE := rstrL s.data

/-- Concatenation of a pattern list. -/
def rcat (rs : List RE) : RE := rs.foldr .seq .eps

/-- Greedy option `r?` (try `r` first, then empty). -/
def ropt (r : RE) : RE := .alt r .eps

/-- Greedy `r+` = `r r*`. -/
def rplus (r : RE) : RE := .seq r (.star false r)

/-- Lazy `r+?` = `r r*?`. -/
def rplusL (r : RE) : RE := .seq r (.star true r)

/-- Greedy `r*`. -/
def rstarG (r : RE) : RE := .star false r

/-- `r{n}`: exactly `n` copies. -/
def rrep : Nat → RE → RE
  | 0, _ => .eps
  | n + 1, r => .seq r (rrep n r)

/-- Class items for `\s`. -/
def spaceItems : List CItem :=
  [.ch ' ', .ch '\t', .ch '\n', .ch '\r', .ch '\x0b', .ch '\x0c']

/-- `\s`. -/
def rsp : RE := .cls false spaceItems

/-- `\d`. -/
def rdig : RE := .cls false [.range '0' '9']

/-- Items of `[A-Za-z]`. -/
def alphaItems : List CItem := [.range 'A' 'Z', .range 'a' 'z']

/-- `.` (any character except a newline). -/
def rdot : RE := .cls true [.ch '\n']

/-- `[:\s]`. -/
def colonSp : RE := .cls false (.ch ':' :: spaceItems)

/-- `\d{2}\s+[A-Za-z]{3}\s+\d{4}` (e.g. `01 Jan 2024`). -/
def dateSpc : RE :=
  rcat [rrep 2 rdig, rplus rsp, rrep 3 (.cls false alphaItems), rplus rsp, rrep 4 rdig]

/-- `\d{2}-[A-Za-z]{3}-\d{4}` (e.g. `01-Jan-2024`). -/
def dateHyp : RE :=
  rcat [rrep 2 rdig, rch '-', rrep 3 (.cls false alphaItems), rch '-', rrep 4 rdig]

/-- `\d{2}[/\-]\d{2}[/\-]\d{4}` (e.g. `01/02/2024`). -/
def dateSla : RE :=
  rcat [rrep 2 rdig, .cls false [.ch '/', .ch '-'], rrep 2 rdig,
        .cls false [.ch '/', .ch '-'], rrep 4 rdig]

/-- `([\d,]+\.?\d*)` without the group: an amount substring. -/
def amtBody : RE :=
  rcat [rplus (.cls false [.range '0' '9', .ch ',']), ropt (rch '.'), rstarG rdig]

/-- `(?:rs\.?|₹|inr)` (currency tokens; case-insensitive contexts only). -/
def curTok : RE :=
  .alt (rcat [rstr "rs", ropt (rch '.')]) (.alt (rch '₹') (rstr "inr"))

/-! ### The extraction patterns of src/main.py, in source order -/

/-- `Card\s+[A-Za-z\s]+\(XXXX-XXXX-XXXX-(\d{4})\)` -/
def cardPat1 : RE :=
  rcat [rstr "Card", rplus rsp, rplus (.cls false (alphaItems ++ spaceItems)),
        rch '(', rstr "XXXX-XXXX-XXXX-", .group 1 (rrep 4 rdig), rch ')']

/-- `XXXX-XXXX-XXXX-(\d{4})` -/
def cardPat2 : RE := rcat [rstr "XXXX-XXXX-XXXX-", .group 1 (rrep 4 rdig)]

/-- `card\s*ending\s*with\s*\d*(\d{4})` -/
def cardPat3 : RE :=
  rcat [rstr "card", rstarG rsp, rstr "ending", rstarG rsp, rstr "with",
        rstarG rsp, rstarG rdig, .group 1 (rrep 4 rdig)]

/-- `xx\s*(\d{4})` -/
def cardPat4 : RE := rcat [rstr "xx", rstarG rsp, .group 1 (rrep 4 rdig)]

/-- `card.*?xx.*?(\d{4})` -/
def cardPat5 : RE :=
  rcat [rstr "card", .star true rdot, rstr "xx", .star true rdot, .group 1 (rrep 4 rdig)]

/-- `xxxx\s*xxxx\s*xxxx\s*(\d{4})` -/
def cardPat6 : RE :=
  rcat [rstr "xxxx", rstarG rsp, rstr "xxxx", rstarG rsp, rstr "xxxx",
        rstarG rsp, .group 1 (rrep 4 rdig)]

/-- The ordered pattern list of `extract_card_last_4`. -/
def cardPats : List RE := [cardPat1, cardPat2, cardPat3, cardPat4, cardPat5, cardPat6]

/-- `Statement Period\s+(\d{2}\s+[A-Za-z]{3}\s+\d{4})\s*-\s*(\d{2}\s+[A-Za-z]{3}\s+\d{4})` -/
def perPat1 : RE :=
  rcat [rstr "Statement Period", rplus rsp, .group 1 dateSpc, rstarG rsp,
        rch '-', rstarG rsp, .group 2 dateSpc]

/-- `Statement Period\s+(\d{2}-[A-Za-z]{3}-\d{4})\s*to\s*(\d{2}-[A-Za-z]{3}-\d{4})` -/
def perPat2 : RE :=
  rcat [rstr "Statement Period", rplus rsp, .group 1 dateHyp, rstarG rsp,
        rstr "to", rstarG rsp, .group 2 dateHyp]

/-- `date\s*range[:\s]*(?:upto\s*)?(\d{1,2}\s+[A-Za-z]{3},?\s+\d{4})` -/
def perPat3 : RE :=
  rcat [rstr "date", rstarG rsp, rstr "range", rstarG colonSp,
        ropt (rcat [rstr "upto", rstarG rsp]),
        .group 1 (rcat [rdig, ropt rdig, rplus rsp, rrep 3 (.cls false alphaItems),
                        ropt (rch ','), rplus rsp, rrep 4 rdig])]

/-- `statement\s*(?:period|date|cycle)[:\s]*(\d{2}[/\-]\d{2}[/\-]\d{4})\s*(?:to|-)\s*(\d{2}[/\-]\d{2}[/\-]\d{4})` -/
def perPat4 : RE :=
  rcat [rstr "statement", rstarG rsp,
        .alt (rstr "period") (.alt (rstr "date") (rstr "cycle")), rstarG colonSp,
        .group 1 dateSla, rstarG rsp, .alt (rstr "to") (rch '-'), rstarG rsp,
        .group 2 dateSla]

/-- `billing\s*(?:period|cycle)[:\s]*(\d{2}[/\-]\d{2}[/\-]\d{4})\s*(?:to|-)\s*(\d{2}[/\-]\d{2}[/\-]\d{4})` -/
def perPat5 : RE :=
  rcat [rstr "billing", rstarG rsp, .alt (rstr "period") (rstr "cycle"), rstarG colonSp,
        .group 1 dateSla, rstarG rsp, .alt (rstr "to") (rch '-'), rstarG rsp,
        .group 2 dateSla]

/-- `from\s*(\d{2}[/\-]\d{2}[/\-]\d{4})\s*to\s*(\d{2}[/\-]\d{2}[/\-]\d{4})` -/
def perPat6 : RE :=
  rcat [rstr "from", rstarG rsp, .group 1 dateSla, rstarG rsp, rstr "to",
        rstarG rsp, .group 2 dateSla]

/-- The ordered pattern list of `extract_statement_period`. -/
def perPats : List RE := [perPat1, perPat2, perPat3, perPat4, perPat5, perPat6]

/-- `Total Amount Due\s+INR\s+([\d,]+\.?\d*)` -/
def tdPat1 : RE :=
  rcat [rstr "Total Amount Due", rplus rsp, rstr "INR", rplus rsp, .group 1 amtBody]

/-- `Total Amount Due\s+(?:Rs\.?|₹)?\s*([\d,]+\.?\d*)` -/
def tdPat2 : RE :=
  rcat [rstr "Total Amount Due", rplus rsp,
        ropt (.alt (rcat [rstr "Rs", ropt (rch '.')]) (rch '₹')), rstarG rsp,
        .group 1 amtBody]

/-- `total\s*(?:amount\s*)?due[:\s]*(?:rs\.?|₹|inr)?\s*([\d,]+\.?\d*)` -/
def tdPat3 : RE :=
  rcat [rstr "total", rstarG rsp, ropt (rcat [rstr "amount", rstarG rsp]),
        rstr "due", rstarG colonSp, ropt curTok, rstarG rsp, .group 1 amtBody]

/-- `amount\s*due[:\s]*(?:rs\.?|₹|inr)?\s*([\d,]+\.?\d*)` -/
def tdPat4 : RE :=
  rcat [rstr "amount", rstarG rsp, rstr "due", rstarG colonSp, ropt curTok,
        rstarG rsp, .group 1 amtBody]

/-- `payment\s*due[:\s]*(?:rs\.?|₹|inr)?\s*([\d,]+\.?\d*)` -/
def tdPat5 : RE :=
  rcat [rstr "payment", rstarG rsp, rstr "due", rstarG colonSp, ropt curTok,
        rstarG rsp, .group 1 amtBody]

/-- `outstanding\s*(?:amount|balance)[:\s]*(?:rs\.?|₹|inr)?\s*([\d,]+\.?\d*)` -/
def tdPat6 : RE :=
  rcat [rstr "outstanding", rstarG rsp, .alt (rstr "amount") (rstr "balance"),
        rstarG colonSp, ropt curTok, rstarG rsp, .group 1 amtBody]

/-- The ordered pattern list of `extract_total_due`. -/
def tdPats : List RE := [tdPat1, tdPat2, tdPat3, tdPat4, tdPat5, tdPat6]

/-- `Payment Due Date\s+(\d{2}\s+[A-Za-z]{3}\s+\d{4})` -/
def ddPat1 : RE := rcat [rstr "Payment Due Date", rplus rsp, .group 1 dateSpc]

/-- `Payment Due Date\s+(\d{2}-[A-Za-z]{3}-\d{4})` -/
def ddPat2 : RE := rcat [rstr "Payment Due Date", rplus rsp, .group 1 dateHyp]

/-- `due\s*(?:date|by)[:\s]*(\d{2}[/\-]\d{2}[/\-]\d{4})` -/
def ddPat3 : RE :=
  rcat [rstr "due", rstarG rsp, .alt (rstr "date") (rstr "by"), rstarG colonSp,
        .group 1 dateSla]

/-- `payment\s*due\s*(?:date|by)[:\s]*(\d{2}[/\-]\d{2}[/\-]\d{4})` -/
def ddPat4 : RE :=
  rcat [rstr "payment", rstarG rsp, rstr "due", rstarG rsp,
        .alt (rstr "date") (rstr "by"), rstarG colonSp, .group 1 dateSla]

/-- `pay\s*by[:\s]*(\d{2}[/\-]\d{2}[/\-]\d{4})` -/
def ddPat5 : RE :=
  rcat [rstr "pay", rstarG rsp, rstr "by", rstarG colonSp, .group 1 dateSla]

/-- The ordered pattern list of `extract_due_date`. -/
def ddPats : List RE := [ddPat1, ddPat2, ddPat3, ddPat4, ddPat5]

/-- `Statement Date\s+(\d{2}\s+[A-Za-z]{3}\s+\d{4})` -/
def sdPat1 : RE := rcat [rstr "Statement Date", rplus rsp, .group 1 dateSpc]

/-- `Statement Date\s+(\d{2}-[A-Za-z]{3}-\d{4})` -/
def sdPat2 : RE := rcat [rstr "Statement Date", rplus rsp, .group 1 dateHyp]

/-- `statement\s*date[:\s]*(\d{2}[/\-]\d{2}[/\-]\d{4})` -/
def sdPat3 : RE :=
  rcat [rstr "statement", rstarG rsp, rstr "date", rstarG colonSp, .group 1 dateSla]

/-- The ordered pattern list of `extract_statement_date`. -/
def sdPats : List RE := [sdPat1, sdPat2, sdPat3]

/-- `Minimum Amount Due\s+INR\s+([\d,]+\.?\d*)` -/
def mdPat1 : RE :=
  rcat [rstr "Minimum Amount Due", rplus rsp, rstr "INR", rplus rsp, .group 1 amtBody]

/-- `Minimum Amount Due\s+(?:Rs\.?|₹)?\s*([\d,]+\.?\d*)` -/
def mdPat2 : RE :=
  rcat [rstr "Minimum Amount Due", rplus rsp,
        ropt (.alt (rcat [rstr "Rs", ropt (rch '.')]) (rch '₹')), rstarG rsp,
        .group 1 amtBody]

/-- `minimum\s*(?:amount\s*)?due[:\s]*(?:rs\.?|₹|inr)?\s*([\d,]+\.?\d*)` -/
def mdPat3 : RE :=
  rcat [rstr "minimum", rstarG rsp, ropt (rcat [rstr "amount", rstarG rsp]),
        rstr "due", rstarG colonSp, ropt curTok, rstarG rsp, .group 1 amtBody]

/-- The ordered pattern list of `extract_minimum_due`. -/
def mdPats : List RE := [mdPat1, mdPat2, mdPat3]

/-- `(?:Name|Customer Name)[:\s]+([A-Z][A-Za-z\s]+?)(?:\n|Customer|Card)` -/
def namePat : RE :=
  rcat [.alt (rstr "Name") (rstr "Customer Name"), rplus colonSp,
        .group 1 (rcat [.cls false [.range 'A' 'Z'],
                        rplusL (.cls false (alphaItems ++ spaceItems))]),
        .alt (rch '\n') (.alt (rstr "Customer") (rstr "Card"))]

/-- `(?:Customer ID|Account Number)[:\s]+(\d+)` -/
def idPat : RE :=
  rcat [.alt (rstr "Customer ID") (rstr "Account Number"), rplus colonSp,
        .group 1 (rplus rdig)]

/-- `(\d{2}-[A-Za-z]{3}-\d{4})\s+(DEBIT|CREDIT)\s+([A-Za-z\s]+?)\s+([\d,]+\.?\d*)`
(the primary transaction grammar; matched WITHOUT `re.IGNORECASE` in the
source: `re.findall(pattern, text)`). -/
def primaryPat : RE :=
  rcat [.group 1 dateHyp, rplus rsp, .group 2 (.alt (rstr "DEBIT") (rstr "CREDIT")),
        rplus rsp, .group 3 (rplusL (.cls false (alphaItems ++ spaceItems))),
        rplus rsp, .group 4 amtBody]

/-- `(\d{2}[/\-]\d{2}[/\-]\d{4})\s+([A-Z\s&\-\.]+?)\s+(?:rs\.?|₹|inr)?\s*([\d,]+\.?\d*)`
(the fallback transaction grammar, matched with `re.IGNORECASE`). -/
def fallbackPat : RE :=
  rcat [.group 1 dateSla, rplus rsp,
        .group 2 (rplusL (.cls false ([CItem.range 'A' 'Z'] ++ spaceItems ++
                                      [CItem.ch '&', CItem.ch '-', CItem.ch '.']))),
        rplus rsp, ropt curTok, rstarG rsp, .group 3 amtBody]

/-! ### Data model and the extractor functions of `CreditCardParser`
(in the pattern comments above, the source's two-character class slash,hyphen
is rendered with an escaped hyphen so that it does not form Lean comment
delimiters; the embedded `RE` terms list the same two characters). -/

/-- A transaction dict.  The primary grammar produces all four keys; the
fallback and placeholder forms have no `type` key, modelled by `none`. -/
structure Transaction where
  date : String
  type : Option String
  description : String
  amount : String
deriving DecidableEq

/-- The record built by `parse_statement`.  The two customer fields are
optional: `none` models the key being absent from the Python dict. -/
structure StatementRecord where
  issuer : String
  card_last_4 : String
  statement_date : String
  statement_period : String
  total_due : String
  minimum_due : String
  due_date : String
  sample_transaction : Transaction
  transaction_count : Nat
  customer_name : Option String
  customer_id : Option String
deriving DecidableEq

/-- Python `text.lower()` as a character list. -/
def lowerL (t : String) : List Char := t.data.map lowerChar

/-- `detect_issuer`: the if/elif chain over signature phrases of the
lower-cased text. -/
def detect_issuer (t : String) : String :=
  if subIn "axis bank".data (lowerL t) || subIn "axis ace".data (lowerL t) then
    "Axis Bank"
  else if subIn "hdfc bank".data (lowerL t) || subIn "hdfc regalia".data (lowerL t) then
    "HDFC Bank"
  else if subIn "icici bank".data (lowerL t) || subIn "icici card".data (lowerL t) then
    "ICICI Bank"
  else if subIn "sbi card".data (lowerL t) || subIn "sbi prime".data (lowerL t) then
    "SBI Card"
  else if subIn "idfc first".data (lowerL t) || subIn "idfc bank".data (lowerL t) then
    "IDFC FIRST Bank"
  else
    "Unknown Issuer"

/-- `extract_card_last_4`: first matching pattern's group 1, else the
sentinel. -/
def extract_card_last_4 (t : String) : String :=
  match firstMatch true cardPats t.data with
  | some cp => String.mk (getCap cp 1)
  | none => "Not found"

/-- `extract_statement_period`: the grammar with one captured group renders
as `Upto <date>`, the two-group grammars as `<date1> to <date2>`. -/
def extract_statement_period (t : String) : String :=
  match firstMatch true perPats t.data with
  | some cp =>
      if lastIdx cp = 1 then "Upto " ++ String.mk (getCap cp 1)
      else String.mk (getCap cp 1) ++ " to " ++ String.mk (getCap cp 2)
  | none => "Not found"

/-- `extract_total_due`: `INR ` prefixed to the captured amount. -/
def extract_total_due (t : String) : String :=
  match firstMatch true tdPats t.data with
  | some cp => "INR " ++ String.mk (getCap cp 1)
  | none => "Not found"

/-- `extract_due_date`. -/
def extract_due_date (t : String) : String :=
  match firstMatch true ddPats t.data with
  | some cp => String.mk (getCap cp 1)
  | none => "Not found"

/-- `extract_statement_date`. -/
def extract_statement_date (t : String) : String :=
  match firstMatch true sdPats t.data with
  | some cp => String.mk (getCap cp 1)
  | none => "Not found"

/-- `extract_minimum_due`. -/
def extract_minimum_due (t : String) : String :=
  match firstMatch true mdPats t.data with
  | some cp => "INR " ++ String.mk (getCap cp 1)
  | none => "Not found"

/-- `extract_customer_info`: optional name (stripped group 1 of the name
pattern) and optional id; both searches use `re.IGNORECASE`. -/
def extract_customer_info (t : String) : Option String × Option String :=
  ((searchA true namePat t.data).map (fun x => String.mk (pyStrip (getCap x.1 1))),
   (searchA true idPat t.data).map (fun x => String.mk (getCap x.1 1)))

/-- `extract_transactions`: all primary-grammar matches (case-sensitive
`re.findall`), each as a four-key transaction. -/
def extract_transactions (t : String) : List Transaction :=
  (findall false primaryPat t.data).map (fun cp =>
    { date := String.mk (getCap cp 1)
    , type := some (String.mk (getCap cp 2))
    , description := String.mk (pyStrip (getCap cp 3))
    , amount := "INR " ++ String.mk (getCap cp 4) })

/-- `extract_sample_transaction`: first primary transaction; otherwise the
first fallback-grammar match as a degraded transaction (no type); otherwise
the all-sentinel placeholder. -/
def extract_sample_transaction (t : String) : Transaction :=
  match extract_transactions t with
  | tr :: _ => tr
  | [] =>
      match findall true fallbackPat t.data with
      | cp :: _ =>
          { date := String.mk (getCap cp 1)
          , type := none
          , description := String.mk (pyStrip (getCap cp 2))
          , amount := "INR " ++ String.mk (getCap cp 3) }
      | [] =>
          { date := "Not found", type := none
          , description := "Not found", amount := "Not found" }

/-- `parse_statement`: the main assembler.  Its text input is the result of
the out-of-scope text-extraction step, modelled as `Option String`
(`none` = extraction failed); Python's `if not text: return None` also
rejects the empty string. -/
def parse_statement (t : Option String) : Option StatementRecord :=
  match t with
  | none => none
  | some text =>
      if text = "" then none
      else some
        { issuer := detect_issuer text
        , card_last_4 := extract_card_last_4 text
        , statement_date := extract_statement_date text
        , statement_period := extract_statement_period text
        , total_due := extract_total_due text
        , minimum_due := extract_minimum_due text
        , due_date := extract_due_date text
        , sample_transaction := extract_sample_transaction text
        , transaction_count := (extract_transactions text).length
        , customer_name := (extract_customer_info text).1
        , customer_id := (extract_customer_info text).2 }

/-- The issuer table in the order the source tests it, used to state C2:
each issuer with its two signature phrases. -/
def issuerRules : List (String × String × String) :=
  [("Axis Bank", "axis bank", "axis ace"),
   ("HDFC Bank", "hdfc bank", "hdfc regalia"),
   ("ICICI Bank", "icici bank", "icici card"),
   ("SBI Card", "sbi card", "sbi prime"),
   ("IDFC FIRST Bank", "idfc first", "idfc bank")]

/-- Spec-side issuer classifier (from the spec's words): the first rule in
the fixed order whose signature phrase occurs in the lower-cased text, else
`Unknown Issuer`. -/
def detectIssuerSpec (t : String) : String :=
  ((issuerRules.find? (fun r =>
      subIn r.2.1.data (lowerL t) || subIn r.2.2.data (lowerL t))).map
    (fun r => r.1)).getD "Unknown Issuer"

/-! ### Semantic layer: what it means for a pattern to match, plus syntactic
predicates on patterns used to state capture properties -/

/-- `re` cannot match the empty string. -/
def nonNullable : RE → Bool
  | .eps => false
  | .cls _ _ => true
  | .seq a b => nonNullable a || nonNullable b
  | .alt a b => nonNullable a && nonNullable b
  | .star _ _ => false
  | .group _ r => nonNullable r

/-- Every capturing group inside `re` has a non-nullable body (so every
capture is a nonempty string). -/
def groupsNonNullable : RE → Bool
  | .eps => true
  | .cls _ _ => true
  | .seq a b => groupsNonNullable a && groupsNonNullable b
  | .alt a b => groupsNonNullable a && groupsNonNullable b
  | .star _ r => groupsNonNullable r
  | .group _ r => nonNullable r && groupsNonNullable r

/-- Group `i` participates in every match of `re` (it occurs outside any
star and on every alternation branch). -/
def hasGroupTop : RE → Nat → Bool
  | .eps, _ => false
  | .cls _ _, _ => false
  | .seq a b, i => hasGroupTop a i || hasGroupTop b i
  | .alt a b, i => hasGroupTop a i && hasGroupTop b i
  | .star _ _, _ => false
  | .group j r, i => (j == i) || hasGroupTop r i

/-- The bodies of all capturing groups numbered `i` inside `re`. -/
def bodiesOf : RE → Nat → List RE
  | .eps, _ => []
  | .cls _ _, _ => []
  | .seq a b, i => bodiesOf a i ++ bodiesOf b i
  | .alt a b, i => bodiesOf a i ++ bodiesOf b i
  | .star _ r, i => bodiesOf r i
  | .group j r, i => (if j = i then [r] else []) ++ bodiesOf r i

/-- `c` is an ASCII letter. -/
def isAsciiLetter (c : Char) : Bool :=
  (decide ('A' ≤ c) && decide (c ≤ 'Z')) || (decide ('a' ≤ c) && decide (c ≤ 'z'))

/-- `c` is an ASCII digit. -/
def isAsciiDigit (c : Char) : Bool :=
  decide ('0' ≤ c) && decide (c ≤ '9')

/-- Declarative matching relation: `Matches ic re p cp` says `re` matches
exactly the characters `p` producing captures `cp` (star iterations are
nonempty, as in the matcher). -/
inductive Matches (ic : Bool) : RE → List Char → Caps → Prop where
  | eps : Matches ic .eps [] []
  | cls {neg : Bool} {items : List CItem} {c : Char}
      (h : clsMatch ic neg items c = true) : Matches ic (.cls neg items) [c] []
  | seq {a b : RE} {p1 c1 p2 c2} (ha : Matches ic a p1 c1)
      (hb : Matches ic b p2 c2) : Matches ic (.seq a b) (p1 ++ p2) (c1 ++ c2)
  | altL {a b : RE} {p c} (h : Matches ic a p c) : Matches ic (.alt a b) p c
  | altR {a b : RE} {p c} (h : Matches ic b p c) : Matches ic (.alt a b) p c
  | starNil {lzy : Bool} {r : RE} : Matches ic (.star lzy r) [] []
  | starCons {lzy : Bool} {r : RE} {p1 c1 p2 c2} (hne : p1 ≠ [])
      (h1 : Matches ic r p1 c1) (h2 : Matches ic (.star lzy r) p2 c2) :
      Matches ic (.star lzy r) (p1 ++ p2) (c1 ++ c2)
  | group {i : Nat} {r : RE} {p c} (h : Matches ic r p c) :
      Matches ic (.group i r) p (c ++ [(i, p)])

/-! ### Soundness of the matcher with respect to `Matches` -/

theorem mrun_sound (ic : Bool) :
    ∀ (fuel : Nat) (re : RE) (s : List Char) (x : Caps × List Char),
      x ∈ mrun ic fuel re s → ∃ p, s = p ++ x.2 ∧ Matches ic re p x.1 := by
  intro fuel
  induction fuel with
  | zero => intro re s x hx; simp [mrun] at hx
  | succ fuel ih =>
    intro re s x hx
    cases re with
    | eps =>
      simp only [mrun, List.mem_singleton] at hx
      subst hx
      exact ⟨[], by simp, Matches.eps⟩
    | cls neg items =>
      cases s with
      | nil => simp [mrun] at hx
      | cons c t =>
        by_cases hcl : clsMatch ic neg items c = true
        · simp only [mrun, hcl, if_true, List.mem_singleton] at hx
          subst hx
          exact ⟨[c], rfl, Matches.cls hcl⟩
        · simp [mrun, hcl] at hx
    | seq a b =>
      simp only [mrun, List.mem_flatMap, List.mem_map] at hx
      obtain ⟨x1, hx1, x2, hx2, hxe⟩ := hx
      obtain ⟨p1, hs1, m1⟩ := ih a s x1 hx1
      obtain ⟨p2, hs2, m2⟩ := ih b x1.2 x2 hx2
      subst hxe
      exact ⟨p1 ++ p2, by rw [hs1, hs2, List.append_assoc], Matches.seq m1 m2⟩
    | alt a b =>
      simp only [mrun, List.mem_append] at hx
      rcases hx with hx | hx
      · obtain ⟨p, hs, m⟩ := ih a s x hx
        exact ⟨p, hs, Matches.altL m⟩
      · obtain ⟨p, hs, m⟩ := ih b s x hx
        exact ⟨p, hs, Matches.altR m⟩
    | star lzy r =>
      have hx2 : x = ([], s) ∨ x ∈ (mrun ic fuel r s).flatMap (fun y =>
          if y.2.length < s.length then
            (mrun ic fuel (.star lzy r) y.2).map (fun z => (y.1 ++ z.1, z.2))
          else []) := by
        simp only [mrun] at hx
        cases lzy
        · simp only [Bool.false_eq_true, if_false, List.mem_append,
            List.mem_singleton] at hx
          tauto
        · simp only [if_true, List.mem_cons] at hx
          tauto
      rcases hx2 with hx2 | hx2
      · subst hx2
        exact ⟨[], by simp, Matches.starNil⟩
      · simp only [List.mem_flatMap] at hx2
        obtain ⟨y, hy, hmem⟩ := hx2
        by_cases hlt : y.2.length < s.length
        · simp only [hlt, if_true, List.mem_map] at hmem
          obtain ⟨z, hz, hxe⟩ := hmem
          obtain ⟨p1, hs1, m1⟩ := ih r s y hy
          obtain ⟨p2, hs2, m2⟩ := ih (.star lzy r) y.2 z hz
          subst hxe
          refine ⟨p1 ++ p2, by rw [hs1, hs2, List.append_assoc], ?_⟩
          refine Matches.starCons ?_ m1 m2
          intro hp1
          subst hp1
          simp only [List.nil_append] at hs1
          rw [hs1] at hlt
          exact lt_irrefl _ hlt
        · simp [hlt] at hmem
    | group i r =>
      simp only [mrun, List.mem_map] at hx
      obtain ⟨y, hy, hxe⟩ := hx
      obtain ⟨p, hs, m⟩ := ih r s y hy
      subst hxe
      subst hs
      refine ⟨p, rfl, ?_⟩
      have htake : (p ++ y.2).take ((p ++ y.2).length - y.2.length) = p := by
        simp
      rw [htake]
      exact Matches.group m

theorem mrunTop_sound (ic : Bool) (re : RE) (s : List Char) (x : Caps × List Char)
    (hx : x ∈ mrunTop ic re s) : ∃ p, s = p ++ x.2 ∧ Matches ic re p x.1 :=
  mrun_sound ic ((s.length + 1) * (reSize re + 1)) re s x hx

theorem searchA_sound (ic : Bool) (re : RE) :
    ∀ (s : List Char) (cp : Caps) (m rest : List Char),
      searchA ic re s = some (cp, m, rest) → Matches ic re m cp := by
  intro s
  induction s with
  | nil =>
    intro cp m rest h
    cases hm : mrunTop ic re [] with
    | nil => simp [searchA, hm] at h
    | cons x xs =>
      simp only [searchA, hm, Option.some.injEq, Prod.mk.injEq] at h
      obtain ⟨h1, h2, h3⟩ := h
      obtain ⟨p, hs, mm⟩ := mrunTop_sound ic re [] x (by rw [hm]; exact List.mem_cons_self x xs)
      have hp : p = [] := by
        cases p with
        | nil => rfl
        | cons a l => simp at hs
      subst h1
      subst h2
      rw [← hp]
      exact mm
  | cons c t ihs =>
    intro cp m rest h
    cases hm : mrunTop ic re (c :: t) with
    | nil =>
      simp only [searchA, hm] at h
      exact ihs cp m rest h
    | cons x xs =>
      simp only [searchA, hm, Option.some.injEq, Prod.mk.injEq] at h
      obtain ⟨h1, h2, h3⟩ := h
      obtain ⟨p, hs, mm⟩ := mrunTop_sound ic re (c :: t) x (by rw [hm]; exact List.mem_cons_self x xs)
      have htake : (c :: t).take ((c :: t).length - x.2.length) = p := by
        rw [hs]
        simp
      subst h1
      rw [← h2, htake]
      exact mm

theorem findallAux_sound (ic : Bool) (re : RE) :
    ∀ (fuel : Nat) (s : List Char) (cp : Caps), cp ∈ findallAux ic re fuel s →
      ∃ m, Matches ic re m cp := by
  intro fuel
  induction fuel with
  | zero => intro s cp h; simp [findallAux] at h
  | succ fuel ih =>
    intro s cp h
    cases hs : searchA ic re s with
    | none => simp [findallAux, hs] at h
    | some y =>
      obtain ⟨cp0, m0, rest0⟩ := y
      have hm0 : Matches ic re m0 cp0 := searchA_sound ic re s cp0 m0 rest0 hs
      simp only [findallAux, hs] at h
      cases m0 with
      | cons a l =>
        rcases List.mem_cons.mp h with h | h
        · subst h; exact ⟨a :: l, hm0⟩
        · exact ih rest0 cp h
      | nil =>
        cases rest0 with
        | nil =>
          rcases List.mem_singleton.mp h with h
          subst h; exact ⟨[], hm0⟩
        | cons b r2 =>
          rcases List.mem_cons.mp h with h | h
          · subst h; exact ⟨[], hm0⟩
          · exact ih r2 cp h

theorem findall_sound (ic : Bool) (re : RE) (s : List Char) (cp : Caps)
    (h : cp ∈ findall ic re s) : ∃ m, Matches ic re m cp :=
  findallAux_sound ic re (s.length + 1) s cp h

theorem firstMatch_sound (ic : Bool) :
    ∀ (pats : List RE) (s : List Char) (cp : Caps),
      firstMatch ic pats s = some cp →
      ∃ re, re ∈ pats ∧ ∃ m, Matches ic re m cp := by
  intro pats
  induction pats with
  | nil => intro s cp h; simp [firstMatch] at h
  | cons p rest ihp =>
    intro s cp h
    cases hs : searchA ic p s with
    | none =>
      simp only [firstMatch, hs] at h
      obtain ⟨re, hre, hm⟩ := ihp s cp h
      exact ⟨re, List.mem_cons_of_mem p hre, hm⟩
    | some y =>
      obtain ⟨cp0, m0, rest0⟩ := y
      simp only [firstMatch, hs, Option.some.injEq] at h
      subst h
      exact ⟨p, List.mem_cons_self p rest,
        ⟨m0, searchA_sound ic p s cp0 m0 rest0 hs⟩⟩

theorem matches_nonNullable {ic : Bool} :
    ∀ {re : RE} {p : List Char} {c : Caps}, Matches ic re p c →
      nonNullable re = true → p ≠ [] := by
  intro re p c m
  induction m with
  | eps => intro h; simp [nonNullable] at h
  | cls h => intro _; simp
  | seq ha hb iha ihb =>
    intro hn hpe
    simp only [nonNullable, Bool.or_eq_true] at hn
    have hsplit := List.append_eq_nil.mp hpe
    rcases hn with hn | hn
    · exact iha hn hsplit.1
    · exact ihb hn hsplit.2
  | altL h ih =>
    intro hn
    simp only [nonNullable, Bool.and_eq_true] at hn
    exact ih hn.1
  | altR h ih =>
    intro hn
    simp only [nonNullable, Bool.and_eq_true] at hn
    exact ih hn.2
  | starNil => intro h; simp [nonNullable] at h
  | starCons hne h1 h2 ih1 ih2 => intro h; simp [nonNullable] at h
  | group h ih =>
    intro hn
    simp only [nonNullable] at hn
    exact ih hn

theorem bodiesOf_nonNullable :
    ∀ (re : RE) (j : Nat) (b : RE), groupsNonNullable re = true →
      b ∈ bodiesOf re j → nonNullable b = true := by
  intro re
  induction re with
  | eps => intro j b _ hb; simp [bodiesOf] at hb
  | cls neg items => intro j b _ hb; simp [bodiesOf] at hb
  | seq a b iha ihb =>
    intro j b0 hg hb0
    simp only [groupsNonNullable, Bool.and_eq_true] at hg
    rcases List.mem_append.mp hb0 with hb0 | hb0
    · exact iha j b0 hg.1 hb0
    · exact ihb j b0 hg.2 hb0
  | alt a b iha ihb =>
    intro j b0 hg hb0
    simp only [groupsNonNullable, Bool.and_eq_true] at hg
    rcases List.mem_append.mp hb0 with hb0 | hb0
    · exact iha j b0 hg.1 hb0
    · exact ihb j b0 hg.2 hb0
  | star lzy r ihr =>
    intro j b0 hg hb0
    simp only [groupsNonNullable] at hg
    exact ihr j b0 hg hb0
  | group i r ihr =>
    intro j b0 hg hb0
    simp only [groupsNonNullable, Bool.and_eq_true] at hg
    rcases List.mem_append.mp hb0 with hb0 | hb0
    · by_cases hij : i = j
      · simp only [hij, if_true, List.mem_singleton] at hb0
        subst hb0
        exact hg.1
      · simp [hij] at hb0
    · exact ihr j b0 hg.2 hb0

theorem matches_caps_bodies {ic : Bool} :
    ∀ {re : RE} {p : List Char} {c : Caps}, Matches ic re p c →
      ∀ (j : Nat) (g : List Char), (j, g) ∈ c →
        ∃ b, b ∈ bodiesOf re j ∧ ∃ cg, Matches ic b g cg := by
  intro re p c m
  induction m with
  | eps => intro j g hg; simp at hg
  | cls h => intro j g hg; simp at hg
  | seq ha hb iha ihb =>
    intro j g hg
    rcases List.mem_append.mp hg with hg | hg
    · obtain ⟨b0, hb0, hcg⟩ := iha j g hg
      exact ⟨b0, List.mem_append.mpr (Or.inl hb0), hcg⟩
    · obtain ⟨b0, hb0, hcg⟩ := ihb j g hg
      exact ⟨b0, List.mem_append.mpr (Or.inr hb0), hcg⟩
  | altL h ih =>
    intro j g hg
    obtain ⟨b0, hb0, hcg⟩ := ih j g hg
    exact ⟨b0, List.mem_append.mpr (Or.inl hb0), hcg⟩
  | altR h ih =>
    intro j g hg
    obtain ⟨b0, hb0, hcg⟩ := ih j g hg
    exact ⟨b0, List.mem_append.mpr (Or.inr hb0), hcg⟩
  | starNil => intro j g hg; simp at hg
  | starCons hne h1 h2 ih1 ih2 =>
    intro j g hg
    rcases List.mem_append.mp hg with hg | hg
    · exact ih1 j g hg
    · exact ih2 j g hg
  | group h ih =>
    rename_i i r p0 c0
    intro j g hg
    rcases List.mem_append.mp hg with hg | hg
    · obtain ⟨b0, hb0, hcg⟩ := ih j g hg
      exact ⟨b0, List.mem_append.mpr (Or.inr hb0), hcg⟩
    · simp only [List.mem_singleton, Prod.mk.injEq] at hg
      obtain ⟨hj, hgp⟩ := hg
      subst hj
      subst hgp
      refine ⟨r, ?_, c0, h⟩
      simp [bodiesOf]

theorem matches_hasGroupTop {ic : Bool} :
    ∀ {re : RE} {p : List Char} {c : Caps}, Matches ic re p c →
      ∀ i : Nat, hasGroupTop re i = true → ∃ g, (i, g) ∈ c := by
  intro re p c m
  induction m with
  | eps => intro i h; simp [hasGroupTop] at h
  | cls h => intro i hh; simp [hasGroupTop] at hh
  | seq ha hb iha ihb =>
    intro i h
    simp only [hasGroupTop, Bool.or_eq_true] at h
    rcases h with h | h
    · obtain ⟨g, hg⟩ := iha i h
      exact ⟨g, List.mem_append.mpr (Or.inl hg)⟩
    · obtain ⟨g, hg⟩ := ihb i h
      exact ⟨g, List.mem_append.mpr (Or.inr hg)⟩
  | altL h ih =>
    intro i hh
    simp only [hasGroupTop, Bool.and_eq_true] at hh
    exact ih i hh.1
  | altR h ih =>
    intro i hh
    simp only [hasGroupTop, Bool.and_eq_true] at hh
    exact ih i hh.2
  | starNil => intro i h; simp [hasGroupTop] at h
  | starCons hne h1 h2 ih1 ih2 => intro i h; simp [hasGroupTop] at h
  | group h ih =>
    rename_i j r p0 c0
    intro i hh
    simp only [hasGroupTop, Bool.or_eq_true, beq_iff_eq] at hh
    by_cases hij : j = i
    · subst hij
      exact ⟨p0, List.mem_append.mpr (Or.inr (List.mem_singleton.mpr rfl))⟩
    · rcases hh with hh | hh
      · exact absurd hh hij
      · obtain ⟨g, hg⟩ := ih i hh
        exact ⟨g, List.mem_append.mpr (Or.inl hg)⟩

theorem lookupCap_of_mem {c : Caps} {i : Nat} (h : ∃ g, (i, g) ∈ c) :
    ∃ g, lookupCap c i = some g ∧ (i, g) ∈ c := by
  obtain ⟨g0, hg0⟩ := h
  have hsome : (c.find? (fun e => e.1 == i)).isSome := by
    rw [List.find?_isSome]
    exact ⟨(i, g0), hg0, by simp⟩
  obtain ⟨e, he⟩ := Option.isSome_iff_exists.mp hsome
  have hp := List.find?_some he
  have hmem : e ∈ c := List.mem_of_find?_eq_some he
  have hei : e.1 = i := by simpa using hp
  refine ⟨e.2, ?_, ?_⟩
  · simp [lookupCap, he]
  · rw [← hei]
    exact hmem

theorem matches_rrep_cls {ic neg : Bool} {items : List CItem} :
    ∀ (n : Nat) {p : List Char} {c : Caps},
      Matches ic (rrep n (.cls neg items)) p c →
      p.length = n ∧ c = [] ∧ ∀ x ∈ p, clsMatch ic neg items x = true := by
  intro n
  induction n with
  | zero =>
    intro p c m
    simp only [rrep] at m
    cases m
    exact ⟨rfl, rfl, by simp⟩
  | succ n ihn =>
    intro p c m
    simp only [rrep] at m
    cases m with
    | seq ha hb =>
      cases ha with
      | cls hcm =>
        obtain ⟨hl, hc, hall⟩ := ihn hb
        refine ⟨by simp [hl], by simp [hc], ?_⟩
        intro x hx
        rcases List.mem_cons.mp hx with hx | hx
        · subst hx; exact hcm
        · exact hall x hx

theorem matches_star_cls {ic : Bool} :
    ∀ {re : RE} {p : List Char} {c : Caps}, Matches ic re p c →
      ∀ (lzy neg : Bool) (items : List CItem), re = .star lzy (.cls neg items) →
        c = [] ∧ ∀ x ∈ p, clsMatch ic neg items x = true := by
  intro re p c m
  induction m with
  | eps => intro lzy neg items he; exact absurd he (by simp)
  | cls h => intro lzy neg items he; exact absurd he (by simp)
  | seq ha hb iha ihb => intro lzy neg items he; exact absurd he (by simp)
  | altL h ih => intro lzy neg items he; exact absurd he (by simp)
  | altR h ih => intro lzy neg items he; exact absurd he (by simp)
  | starNil => intro lzy neg items he; exact ⟨rfl, by simp⟩
  | group h ih => intro lzy neg items he; exact absurd he (by simp)
  | starCons hne h1 h2 ih1 ih2 =>
    intro lzy neg items he
    injection he with he1 he2
    subst he2
    cases h1 with
    | cls hcm =>
      obtain ⟨hc2, hall⟩ := ih2 _ neg items rfl
      refine ⟨by simp [hc2], ?_⟩
      intro x hx
      rcases List.mem_append.mp hx with hx | hx
      · rcases List.mem_singleton.mp hx with hx
        subst hx; exact hcm
      · exact hall x hx

theorem matches_plus_cls {ic neg : Bool} {items : List CItem} {p : List Char}
    {c : Caps} (m : Matches ic (rplus (.cls neg items)) p c) :
    c = [] ∧ p ≠ [] ∧ ∀ x ∈ p, clsMatch ic neg items x = true := by
  simp only [rplus] at m
  cases m with
  | seq ha hb =>
    cases ha with
    | cls hcm =>
      obtain ⟨hc2, hall⟩ := matches_star_cls hb false neg items rfl
      refine ⟨by simp [hc2], by simp, ?_⟩
      intro x hx
      rcases List.mem_cons.mp hx with hx | hx
      · subst hx; exact hcm
      · exact hall x hx

theorem matches_plusL_cls {ic neg : Bool} {items : List CItem} {p : List Char}
    {c : Caps} (m : Matches ic (rplusL (.cls neg items)) p c) :
    c = [] ∧ p ≠ [] ∧ ∀ x ∈ p, clsMatch ic neg items x = true := by
  simp only [rplusL] at m
  cases m with
  | seq ha hb =>
    cases ha with
    | cls hcm =>
      obtain ⟨hc2, hall⟩ := matches_star_cls hb true neg items rfl
      refine ⟨by simp [hc2], by simp, ?_⟩
      intro x hx
      rcases List.mem_cons.mp hx with hx | hx
      · subst hx; exact hcm
      · exact hall x hx

theorem matches_rstrL_false :
    ∀ (w : List Char) {p : List Char} {c : Caps},
      Matches false (rstrL w) p c → p = w ∧ c = [] := by
  intro w
  induction w with
  | nil =>
    intro p c m
    simp only [rstrL] at m
    cases m
    exact ⟨rfl, rfl⟩
  | cons a as ihw =>
    intro p c m
    simp only [rstrL, rch] at m
    cases m with
    | seq ha hb =>
      cases ha with
      | cls hcm =>
        rename_i c0
        obtain ⟨hp, hc⟩ := ihw hb
        have hca : c0 = a := by simpa [clsMatch, inItems] using hcm
        subst hca
        simp [hp, hc]

theorem lowerChar_cases (c : Char) :
    lowerChar c = c ∨ ∃ pr, pr ∈ caseTable ∧ pr.1 = c ∧ lowerChar c = pr.2 := by
  unfold lowerChar
  cases hf : caseTable.find? (fun p => p.1 == c) with
  | none => left; simp
  | some pr =>
    right
    refine ⟨pr, List.mem_of_find?_eq_some hf, ?_, by simp⟩
    have hp := List.find?_some hf
    simpa using hp

theorem upperChar_cases (c : Char) :
    upperChar c = c ∨ ∃ pr, pr ∈ caseTable ∧ pr.2 = c ∧ upperChar c = pr.1 := by
  unfold upperChar
  cases hf : caseTable.find? (fun p => p.2 == c) with
  | none => left; simp
  | some pr =>
    right
    refine ⟨pr, List.mem_of_find?_eq_some hf, ?_, by simp⟩
    have hp := List.find?_some hf
    simpa using hp

theorem clsMatch_false_elim {ic : Bool} {items : List CItem} {c : Char}
    (h : clsMatch ic false items c = true) :
    inItems c items = true ∨ inItems (lowerChar c) items = true ∨
      inItems (upperChar c) items = true := by
  cases ic
  · left
    simpa [clsMatch] using h
  · have h2 : (inItems c items || inItems (lowerChar c) items ||
        inItems (upperChar c) items) = true := by
      simpa [clsMatch] using h
    simpa [Bool.or_assoc] using h2

theorem clsMatch_AZ_letter {ic : Bool} {c : Char}
    (h : clsMatch ic false [.range 'A' 'Z'] c = true) : isAsciiLetter c = true := by
  have hAZ : ∀ d : Char, inItems d [.range 'A' 'Z'] = true → 'A' ≤ d ∧ d ≤ 'Z' := by
    intro d hd
    simpa [inItems] using hd
  have hup : ∀ d : Char, inItems d [.range 'A' 'Z'] = true → isAsciiLetter d = true := by
    intro d hd
    obtain ⟨h1, h2⟩ := hAZ d hd
    simp [isAsciiLetter, h1, h2]
  rcases clsMatch_false_elim h with h | h | h
  · exact hup c h
  · rcases lowerChar_cases c with hl | ⟨pr, hmem, hpr1, hl⟩
    · rw [hl] at h
      exact hup c h
    · rw [hl] at h
      obtain ⟨h1, h2⟩ := hAZ pr.2 h
      have hnot : ∀ q ∈ caseTable, ¬('A' ≤ q.2 ∧ q.2 ≤ 'Z') := by decide
      exact absurd ⟨h1, h2⟩ (hnot pr hmem)
  · rcases upperChar_cases c with hu | ⟨pr, hmem, hpr2, hu⟩
    · rw [hu] at h
      exact hup c h
    · have hlet : ∀ q ∈ caseTable, isAsciiLetter q.2 = true := by decide
      rw [← hpr2]
      exact hlet pr hmem

theorem clsMatch_digit {ic : Bool} {c : Char}
    (h : clsMatch ic false [.range '0' '9'] c = true) : isAsciiDigit c = true := by
  have h09 : ∀ d : Char, inItems d [.range '0' '9'] = true → isAsciiDigit d = true := by
    intro d hd
    have : '0' ≤ d ∧ d ≤ '9' := by simpa [inItems] using hd
    simp [isAsciiDigit, this.1, this.2]
  rcases clsMatch_false_elim h with h | h | h
  · exact h09 c h
  · rcases lowerChar_cases c with hl | ⟨pr, hmem, hpr1, hl⟩
    · rw [hl] at h
      exact h09 c h
    · rw [hl] at h
      have hnot : ∀ q ∈ caseTable, ¬('0' ≤ q.2 ∧ q.2 ≤ '9') := by decide
      have hin : '0' ≤ pr.2 ∧ pr.2 ≤ '9' := by simpa [inItems] using h
      exact absurd hin (hnot pr hmem)
  · rcases upperChar_cases c with hu | ⟨pr, hmem, hpr2, hu⟩
    · rw [hu] at h
      exact h09 c h
    · rw [hu] at h
      have hnot : ∀ q ∈ caseTable, ¬('0' ≤ q.1 ∧ q.1 ≤ '9') := by decide
      have hin : '0' ≤ pr.1 ∧ pr.1 ≤ '9' := by simpa [inItems] using h
      exact absurd hin (hnot pr hmem)

theorem letter_not_space {c : Char} (h : isAsciiLetter c = true) :
    isPySpace c = false := by
  rcases Bool.eq_false_or_eq_true (isPySpace c) with ht | hf
  · exfalso
    have ht2 : c = ' ' ∨ c = '\t' ∨ c = '\n' ∨ c = '\r' ∨ c = '\x0b' ∨
        c = '\x0c' := by
      simpa [isPySpace, Bool.or_assoc] using ht
    rcases ht2 with h1 | h1 | h1 | h1 | h1 | h1 <;> subst h1 <;>
      exact absurd h (by decide)
  · exact hf

theorem dropWhile_concat_keep {p : Char → Bool} {a : Char} (ha : p a = false) :
    ∀ xs : List Char, ∃ ys, List.dropWhile p (xs ++ [a]) = ys ++ [a] := by
  intro xs
  induction xs with
  | nil =>
    refine ⟨[], ?_⟩
    simp [List.dropWhile_cons, ha]
  | cons x xt ih =>
    by_cases hx : p x = true
    · obtain ⟨ys, hys⟩ := ih
      refine ⟨ys, ?_⟩
      simpa [List.dropWhile_cons, hx] using hys
    · refine ⟨x :: (xt ++ [a]).dropLast, ?_⟩
      simp only [List.cons_append, List.dropWhile_cons]
      rw [if_neg (by simp [hx])]
      simp

theorem pyStrip_cons_of_not_space {a : Char} (ha : isPySpace a = false)
    (l : List Char) : ∃ t2, pyStrip (a :: l) = a :: t2 := by
  unfold pyStrip
  rw [List.dropWhile_cons, if_neg (by simp [ha])]
  obtain ⟨ys, hys⟩ := dropWhile_concat_keep ha l.reverse
  rw [List.reverse_cons, hys]
  exact ⟨ys.reverse, by simp⟩

theorem head_dropWhile_false (p : Char → Bool) :
    ∀ (x : List Char) (a : Char), (x.dropWhile p).head? = some a → p a = false := by
  intro x
  induction x with
  | nil => intro a h; simp at h
  | cons b t ih =>
    intro a h
    by_cases hb : p b = true
    · rw [List.dropWhile_cons, if_pos (by simp [hb])] at h
      exact ih a h
    · rw [List.dropWhile_cons, if_neg (by simp [hb])] at h
      simp only [List.head?_cons, Option.some.injEq] at h
      rw [← h]
      simpa using hb

theorem pyStrip_getLast_not_space (l : List Char) (a : Char)
    (h : (pyStrip l).getLast? = some a) : isPySpace a = false := by
  unfold pyStrip at h
  rw [List.getLast?_reverse] at h
  exact head_dropWhile_false isPySpace _ a h

theorem str_ne_empty_of_data_ne {x : String} (h : x.data ≠ []) : x ≠ "" := by
  intro hc
  apply h
  rw [hc]

theorem strMk_ne_empty {g : List Char} (h : g ≠ []) : String.mk g ≠ "" :=
  str_ne_empty_of_data_ne h

theorem inr_ne_empty (x : String) : ("INR " ++ x) ≠ "" := by
  apply str_ne_empty_of_data_ne
  rw [String.data_append]
  simp

theorem matches_cap_ne {ic : Bool} {re : RE} {m : List Char} {cp : Caps} (i : Nat)
    (hm : Matches ic re m cp) (h1 : hasGroupTop re i = true)
    (h2 : groupsNonNullable re = true) :
    ∃ g, lookupCap cp i = some g ∧ g ≠ [] := by
  obtain ⟨g0, hg0⟩ := matches_hasGroupTop hm i h1
  obtain ⟨g, hg, hmem⟩ := lookupCap_of_mem ⟨g0, hg0⟩
  obtain ⟨b, hb, cg, hcg⟩ := matches_caps_bodies hm i g hmem
  exact ⟨g, hg, matches_nonNullable hcg (bodiesOf_nonNullable re i b h2 hb)⟩

theorem firstMatch_cap_ne {ic : Bool} {pats : List RE} {s : List Char} {cp : Caps}
    (h : firstMatch ic pats s = some cp)
    (hall : ∀ r0 ∈ pats, hasGroupTop r0 1 = true ∧ groupsNonNullable r0 = true) :
    getCap cp 1 ≠ [] := by
  obtain ⟨re, hre, m0, hm⟩ := firstMatch_sound ic pats s cp h
  obtain ⟨hg1, hg2⟩ := hall re hre
  obtain ⟨g, hg, hne⟩ := matches_cap_ne 1 hm hg1 hg2
  simpa [getCap, hg] using hne

theorem extract_card_last_4_ne (t : String) : extract_card_last_4 t ≠ "" := by
  unfold extract_card_last_4
  cases h : firstMatch true cardPats t.data with
  | none => simp
  | some cp =>
    exact strMk_ne_empty (firstMatch_cap_ne h (by decide))

theorem extract_statement_date_ne (t : String) : extract_statement_date t ≠ "" := by
  unfold extract_statement_date
  cases h : firstMatch true sdPats t.data with
  | none => simp
  | some cp =>
    exact strMk_ne_empty (firstMatch_cap_ne h (by decide))

theorem extract_due_date_ne (t : String) : extract_due_date t ≠ "" := by
  unfold extract_due_date
  cases h : firstMatch true ddPats t.data with
  | none => simp
  | some cp =>
    exact strMk_ne_empty (firstMatch_cap_ne h (by decide))

theorem extract_statement_period_ne (t : String) : extract_statement_period t ≠ "" := by
  unfold extract_statement_period
  cases h : firstMatch true perPats t.data with
  | none => simp
  | some cp =>
    dsimp only
    by_cases hL : lastIdx cp = 1
    · rw [if_pos hL]
      apply str_ne_empty_of_data_ne
      rw [String.data_append]
      simp
    · rw [if_neg hL]
      apply str_ne_empty_of_data_ne
      rw [String.data_append, String.data_append]
      simp

theorem extract_total_due_ne (t : String) : extract_total_due t ≠ "" := by
  unfold extract_total_due
  cases h : firstMatch true tdPats t.data with
  | none => simp
  | some cp => exact inr_ne_empty _

theorem extract_minimum_due_ne (t : String) : extract_minimum_due t ≠ "" := by
  unfold extract_minimum_due
  cases h : firstMatch true mdPats t.data with
  | none => simp
  | some cp => exact inr_ne_empty _

theorem detect_issuer_mem (t : String) :
    detect_issuer t ∈ ["Axis Bank", "HDFC Bank", "ICICI Bank", "SBI Card",
      "IDFC FIRST Bank", "Unknown Issuer"] := by
  unfold detect_issuer
  split_ifs <;> simp

theorem detect_issuer_ne (t : String) : detect_issuer t ≠ "" := by
  unfold detect_issuer
  split_ifs <;> simp

theorem extract_card_last_4_shape (t : String) :
    extract_card_last_4 t = "Not found" ∨
      ((extract_card_last_4 t).length = 4 ∧
        ∀ ch ∈ (extract_card_last_4 t).data, isAsciiDigit ch = true) := by
  unfold extract_card_last_4
  cases h : firstMatch true cardPats t.data with
  | none => left; rfl
  | some cp =>
    right
    obtain ⟨re, hre, m0, hm⟩ := firstMatch_sound true cardPats t.data cp h
    have h1 : hasGroupTop re 1 = true := by
      have hall : ∀ r0 ∈ cardPats, hasGroupTop r0 1 = true := by decide
      exact hall re hre
    obtain ⟨g0, hg0⟩ := matches_hasGroupTop hm 1 h1
    obtain ⟨g, hg, hmem⟩ := lookupCap_of_mem ⟨g0, hg0⟩
    obtain ⟨b, hb, cg, hcg⟩ := matches_caps_bodies hm 1 g hmem
    have hbody : b = rrep 4 rdig := by
      have hbs : ∀ r0 ∈ cardPats, bodiesOf r0 1 = [rrep 4 rdig] := by decide
      rw [hbs re hre] at hb
      simpa using hb
    subst hbody
    obtain ⟨hlen, hcnil, hall⟩ := matches_rrep_cls 4 hcg
    simp only [getCap, hg, Option.getD_some]
    constructor
    · simpa [String.length] using hlen
    · intro ch hch
      exact clsMatch_digit (hall ch hch)

theorem extract_transactions_type (t : String) :
    ∀ tr ∈ extract_transactions t,
      tr.type = some "DEBIT" ∨ tr.type = some "CREDIT" := by
  intro tr htr
  unfold extract_transactions at htr
  rw [List.mem_map] at htr
  obtain ⟨cp, hcp, htre⟩ := htr
  obtain ⟨m0, hm⟩ := findall_sound false primaryPat t.data cp hcp
  have h2 : hasGroupTop primaryPat 2 = true := by decide
  obtain ⟨g0, hg0⟩ := matches_hasGroupTop hm 2 h2
  obtain ⟨g, hg, hmem⟩ := lookupCap_of_mem ⟨g0, hg0⟩
  obtain ⟨b, hb, cg, hcg⟩ := matches_caps_bodies hm 2 g hmem
  have hbody : b = .alt (rstr "DEBIT") (rstr "CREDIT") := by
    have hbs : bodiesOf primaryPat 2 = [.alt (rstr "DEBIT") (rstr "CREDIT")] := by
      decide
    rw [hbs] at hb
    simpa using hb
  subst hbody
  subst htre
  simp only [getCap, hg, Option.getD_some]
  cases hcg with
  | altL hL =>
    obtain ⟨hp, _⟩ := matches_rstrL_false "DEBIT".data hL
    left
    rw [hp]
  | altR hR =>
    obtain ⟨hp, _⟩ := matches_rstrL_false "CREDIT".data hR
    right
    rw [hp]

theorem findall_cap1_ne {ic : Bool} {re : RE} {s : List Char} {cp : Caps}
    (h : cp ∈ findall ic re s) (h1 : hasGroupTop re 1 = true)
    (h2 : groupsNonNullable re = true) : getCap cp 1 ≠ [] := by
  obtain ⟨m0, hm⟩ := findall_sound ic re s cp h
  obtain ⟨g, hg, hne⟩ := matches_cap_ne 1 hm h1 h2
  simpa [getCap, hg] using hne

theorem extract_sample_transaction_shape (t : String) :
    (extract_sample_transaction t).date ≠ "" ∧
      (extract_sample_transaction t).amount ≠ "" ∧
      ∀ ty, (extract_sample_transaction t).type = some ty →
        ty = "DEBIT" ∨ ty = "CREDIT" := by
  unfold extract_sample_transaction
  cases hp : extract_transactions t with
  | cons tr rest =>
    have htypes := extract_transactions_type t tr (by rw [hp]; simp)
    have hdate : tr.date ≠ "" := by
      have htr : tr ∈ extract_transactions t := by rw [hp]; simp
      unfold extract_transactions at htr
      rw [List.mem_map] at htr
      obtain ⟨cp, hcp, htre⟩ := htr
      subst htre
      exact strMk_ne_empty (findall_cap1_ne hcp (by decide) (by decide))
    have hamt : tr.amount ≠ "" := by
      have htr : tr ∈ extract_transactions t := by rw [hp]; simp
      unfold extract_transactions at htr
      rw [List.mem_map] at htr
      obtain ⟨cp, hcp, htre⟩ := htr
      subst htre
      exact inr_ne_empty _
    refine ⟨hdate, hamt, ?_⟩
    intro ty hty
    rcases htypes with ht | ht <;> rw [hty] at ht <;>
      simp only [Option.some.injEq] at ht <;> [left; right] <;> exact ht
  | nil =>
    cases hf : findall true fallbackPat t.data with
    | cons cp rest =>
      refine ⟨?_, inr_ne_empty _, ?_⟩
      · exact strMk_ne_empty (findall_cap1_ne (by rw [hf]; simp) (by decide) (by decide))
      · intro ty hty
        simp at hty
    | nil =>
      refine ⟨by simp, by simp, ?_⟩
      intro ty hty
      simp at hty

theorem customer_name_shape (t : String) (n : String)
    (h : (extract_customer_info t).1 = some n) :
    n ≠ "" ∧ (∃ h0 t2, n.data = h0 :: t2 ∧ isAsciiLetter h0 = true) ∧
      ∀ a, n.data.getLast? = some a → isPySpace a = false := by
  unfold extract_customer_info at h
  simp only at h
  cases hs : searchA true namePat t.data with
  | none => rw [hs] at h; simp at h
  | some x =>
    obtain ⟨cp, m0, rest⟩ := x
    rw [hs] at h
    have hn : String.mk (pyStrip (getCap cp 1)) = n := by simpa using h
    have hm := searchA_sound true namePat t.data cp m0 rest hs
    obtain ⟨g0, hg0⟩ := matches_hasGroupTop hm 1 (by decide)
    obtain ⟨g, hg, hmem⟩ := lookupCap_of_mem ⟨g0, hg0⟩
    obtain ⟨b, hb, cg, hcg⟩ := matches_caps_bodies hm 1 g hmem
    have hbody : b = rcat [.cls false [.range 'A' 'Z'],
        rplusL (.cls false (alphaItems ++ spaceItems))] := by
      have hbs : bodiesOf namePat 1 = [rcat [.cls false [.range 'A' 'Z'],
          rplusL (.cls false (alphaItems ++ spaceItems))]] := by decide
      rw [hbs] at hb
      simpa using hb
    subst hbody
    simp only [rcat, List.foldr] at hcg
    cases hcg with
    | seq ha hb2 =>
      cases ha with
      | cls hcm =>
        rename_i p2 c2 c0
        have hlet := clsMatch_AZ_letter hcm
        obtain ⟨t2, ht2⟩ := pyStrip_cons_of_not_space (letter_not_space hlet) p2
        have hgc : getCap cp 1 = c0 :: p2 := by
          simp [getCap, hg]
        have hnd : n.data = pyStrip (c0 :: p2) := by
          rw [← hn]
          simp [hgc]
        refine ⟨?_, ⟨c0, t2, ?_, hlet⟩, ?_⟩
        · apply str_ne_empty_of_data_ne
          rw [hnd, ht2]
          simp
        · rw [hnd, ht2]
        · intro a ha
          rw [hnd] at ha
          exact pyStrip_getLast_not_space _ a ha

theorem customer_id_shape (t : String) (i : String)
    (h : (extract_customer_info t).2 = some i) :
    i ≠ "" ∧ ∀ ch ∈ i.data, isAsciiDigit ch = true := by
  unfold extract_customer_info at h
  simp only at h
  cases hs : searchA true idPat t.data with
  | none => rw [hs] at h; simp at h
  | some x =>
    obtain ⟨cp, m0, rest⟩ := x
    rw [hs] at h
    have hi : String.mk (getCap cp 1) = i := by simpa using h
    have hm := searchA_sound true idPat t.data cp m0 rest hs
    obtain ⟨g0, hg0⟩ := matches_hasGroupTop hm 1 (by decide)
    obtain ⟨g, hg, hmem⟩ := lookupCap_of_mem ⟨g0, hg0⟩
    obtain ⟨b, hb, cg, hcg⟩ := matches_caps_bodies hm 1 g hmem
    have hbody : b = rplus rdig := by
      have hbs : bodiesOf idPat 1 = [rplus rdig] := by decide
      rw [hbs] at hb
      simpa using hb
    subst hbody
    obtain ⟨hc, hpne, hall⟩ := matches_plus_cls hcg
    have hgc : getCap cp 1 = g := by simp [getCap, hg]
    constructor
    · rw [← hi]
      exact strMk_ne_empty (by rw [hgc]; exact hpne)
    · intro ch hch
      rw [← hi] at hch
      simp only at hch
      rw [hgc] at hch
      exact clsMatch_digit (hall ch hch)

theorem parse_statement_some (t : String) (h : t ≠ "") :
    parse_statement (some t) = some
      { issuer := detect_issuer t
      , card_last_4 := extract_card_last_4 t
      , statement_date := extract_statement_date t
      , statement_period := extract_statement_period t
      , total_due := extract_total_due t
      , minimum_due := extract_minimum_due t
      , due_date := extract_due_date t
      , sample_transaction := extract_sample_transaction t
      , transaction_count := (extract_transactions t).length
      , customer_name := (extract_customer_info t).1
      , customer_id := (extract_customer_info t).2 } := by
  unfold parse_statement
  dsimp only
  rw [if_neg h]

/-- C1 (counterexample): on the text `01-Jan-2024 DEBIT   450.00` the primary
transaction grammar matches with its lazy description group capturing a
single space, which `.strip()` reduces to the empty string; the record built
by `parse_statement` therefore carries a sample transaction whose
`description` is the empty string — neither a captured (nonempty) value nor
the sentinel — refuting the claim's "never ... empty". -/
theorem c1_counterexample :
    parse_statement (some "01-Jan-2024 DEBIT   450.00") = some
      { issuer := "Unknown Issuer", card_last_4 := "Not found"
      , statement_date := "Not found", statement_period := "Not found"
      , total_due := "Not found", minimum_due := "Not found"
      , due_date := "Not found"
      , sample_transaction :=
          { date := "01-Jan-2024", type := some "DEBIT", description := ""
          , amount := "INR 450.00" }
      , transaction_count := 1, customer_name := none, customer_id := none } := by
  decide

/-- C1 (amended): for nonempty text, `parse_statement` yields a record whose
scalar fields are all present and nonempty — the issuer, the seven extracted
strings, and the sample transaction's date and amount (its type, when
present, is `DEBIT` or `CREDIT`; `card_last_4` is the sentinel or a 4-digit
string) — EXCEPT the sample transaction's description, which is trimmed from
a capture and may be empty; the two customer fields equal the optional
results of `extract_customer_info` (present exactly when their pattern
matched, with the matched value, which is nonempty for the name). -/
theorem c1_amended (t : String) (h : t ≠ "") :
    ∃ r, parse_statement (some t) = some r ∧
      r.issuer ≠ "" ∧
      r.card_last_4 ≠ "" ∧
      (r.card_last_4 = "Not found" ∨ (r.card_last_4.length = 4 ∧
        ∀ ch ∈ r.card_last_4.data, isAsciiDigit ch = true)) ∧
      r.statement_date ≠ "" ∧ r.statement_period ≠ "" ∧ r.total_due ≠ "" ∧
      r.minimum_due ≠ "" ∧ r.due_date ≠ "" ∧
      r.sample_transaction.date ≠ "" ∧ r.sample_transaction.amount ≠ "" ∧
      (∀ ty, r.sample_transaction.type = some ty →
        ty = "DEBIT" ∨ ty = "CREDIT") ∧
      r.customer_name = (extract_customer_info t).1 ∧
      r.customer_id = (extract_customer_info t).2 ∧
      (∀ n, r.customer_name = some n → n ≠ "") := by
  refine ⟨_, parse_statement_some t h, detect_issuer_ne t, extract_card_last_4_ne t,
    extract_card_last_4_shape t, extract_statement_date_ne t,
    extract_statement_period_ne t, extract_total_due_ne t,
    extract_minimum_due_ne t, extract_due_date_ne t,
    (extract_sample_transaction_shape t).1,
    (extract_sample_transaction_shape t).2.1,
    (extract_sample_transaction_shape t).2.2, rfl, rfl, ?_⟩
  intro n hn
  exact (customer_name_shape t n hn).1

/-- Witness for the amended C1 at the concrete nonempty text `a`. -/
theorem c1_amended_witness :
    (("a" : String) ≠ "") ∧
    ∃ r, parse_statement (some "a") = some r ∧
      r.issuer ≠ "" ∧
      r.card_last_4 ≠ "" ∧
      (r.card_last_4 = "Not found" ∨ (r.card_last_4.length = 4 ∧
        ∀ ch ∈ r.card_last_4.data, isAsciiDigit ch = true)) ∧
      r.statement_date ≠ "" ∧ r.statement_period ≠ "" ∧ r.total_due ≠ "" ∧
      r.minimum_due ≠ "" ∧ r.due_date ≠ "" ∧
      r.sample_transaction.date ≠ "" ∧ r.sample_transaction.amount ≠ "" ∧
      (∀ ty, r.sample_transaction.type = some ty →
        ty = "DEBIT" ∨ ty = "CREDIT") ∧
      r.customer_name = (extract_customer_info "a").1 ∧
      r.customer_id = (extract_customer_info "a").2 ∧
      (∀ n, r.customer_name = some n → n ≠ "") :=
  ⟨by decide, c1_amended "a" (by decide)⟩

/-- C2: `detect_issuer` coincides with the spec-side classifier that returns
the first issuer in the fixed order (Axis, HDFC, ICICI, SBI, IDFC) whose
signature phrase occurs in the lower-cased text, and `Unknown Issuer` when
no signature occurs; in particular, when two issuers' phrases both occur the
earlier rule wins. -/
theorem c2_issuer_first_match : ∀ t : String, detect_issuer t = detectIssuerSpec t := by
  intro t
  unfold detect_issuer detectIssuerSpec issuerRules
  by_cases h1 : (subIn "axis bank".data (lowerL t) || subIn "axis ace".data (lowerL t)) = true <;>
    by_cases h2 : (subIn "hdfc bank".data (lowerL t) || subIn "hdfc regalia".data (lowerL t)) = true <;>
      by_cases h3 : (subIn "icici bank".data (lowerL t) || subIn "icici card".data (lowerL t)) = true <;>
        by_cases h4 : (subIn "sbi card".data (lowerL t) || subIn "sbi prime".data (lowerL t)) = true <;>
          by_cases h5 : (subIn "idfc first".data (lowerL t) || subIn "idfc bank".data (lowerL t)) = true <;>
            simp [List.find?, h1, h2, h3, h4, h5]

/-- C3: the statement-period extractor selects the grammar by the number of
captured groups of the first matching rule: a two-group rule renders as a
range, the one-group rule as an upper bound. -/
theorem c3_period_grammar_selection :
    extract_statement_period "Statement Period 01 Jan 2024 - 31 Jan 2024" =
        "01 Jan 2024 to 31 Jan 2024" ∧
      extract_statement_period "date range: upto 15 Mar 2024" =
        "Upto 15 Mar 2024" := by
  constructor <;> decide

/-- C4: when the primary grammar matches at least once, the record's
`transaction_count` is the number of primary-grammar matches and its
`sample_transaction` is the first of them (fallback matches are neither
counted nor selected, the count being the primary list's length). -/
theorem c4_primary_count_and_sample (t : String) (tr : Transaction)
    (h1 : t ≠ "") (h2 : (extract_transactions t).head? = some tr) :
    ∃ r, parse_statement (some t) = some r ∧
      r.transaction_count = (extract_transactions t).length ∧
      r.sample_transaction = tr := by
  refine ⟨_, parse_statement_some t h1, rfl, ?_⟩
  unfold extract_sample_transaction
  cases hp : extract_transactions t with
  | nil => rw [hp] at h2; simp at h2
  | cons a rest =>
    rw [hp] at h2
    simp only [List.head?_cons, Option.some.injEq] at h2
    exact h2

/-- Witness for C4 at a text with exactly three primary-grammar lines and
one line matching only the fallback grammar. -/
theorem c4_witness :
    (("01-Jan-2024 DEBIT A 1\n02-Jan-2024 DEBIT B 2\n03-Jan-2024 CREDIT C 3\n04/01/2024 D 4" : String) ≠ "") ∧
    (extract_transactions "01-Jan-2024 DEBIT A 1\n02-Jan-2024 DEBIT B 2\n03-Jan-2024 CREDIT C 3\n04/01/2024 D 4").head? =
      some { date := "01-Jan-2024", type := some "DEBIT", description := "A"
           , amount := "INR 1" } ∧
    (extract_transactions "01-Jan-2024 DEBIT A 1\n02-Jan-2024 DEBIT B 2\n03-Jan-2024 CREDIT C 3\n04/01/2024 D 4").length = 3 ∧
    (findall true fallbackPat "01-Jan-2024 DEBIT A 1\n02-Jan-2024 DEBIT B 2\n03-Jan-2024 CREDIT C 3\n04/01/2024 D 4".data).length ≠ 0 ∧
    ∃ r, parse_statement (some "01-Jan-2024 DEBIT A 1\n02-Jan-2024 DEBIT B 2\n03-Jan-2024 CREDIT C 3\n04/01/2024 D 4") = some r ∧
      r.transaction_count = (extract_transactions "01-Jan-2024 DEBIT A 1\n02-Jan-2024 DEBIT B 2\n03-Jan-2024 CREDIT C 3\n04/01/2024 D 4").length ∧
      r.sample_transaction =
        { date := "01-Jan-2024", type := some "DEBIT", description := "A"
        , amount := "INR 1" } :=
  ⟨by decide, by decide, by decide, by decide,
   c4_primary_count_and_sample _ _ (by decide) (by decide)⟩

/-- C5: when the primary grammar has zero matches, the sample transaction
has no type key; it is built from the first fallback-grammar match (only
date, description, amount) when one exists, and is the all-sentinel
placeholder when the fallback grammar finds nothing either; the extractor is
a total function, so no input can make it fail. -/
theorem c5_fallback_and_placeholder (t : String)
    (h : extract_transactions t = []) :
    (extract_sample_transaction t).type = none ∧
      (∀ cp, (findall true fallbackPat t.data).head? = some cp →
        extract_sample_transaction t =
          { date := String.mk (getCap cp 1), type := none
          , description := String.mk (pyStrip (getCap cp 2))
          , amount := "INR " ++ String.mk (getCap cp 3) }) ∧
      (findall true fallbackPat t.data = [] →
        extract_sample_transaction t =
          { date := "Not found", type := none, description := "Not found"
          , amount := "Not found" }) := by
  have he : extract_sample_transaction t =
      match findall true fallbackPat t.data with
      | cp :: _ =>
          { date := String.mk (getCap cp 1), type := none
          , description := String.mk (pyStrip (getCap cp 2))
          , amount := "INR " ++ String.mk (getCap cp 3) }
      | [] =>
          { date := "Not found", type := none, description := "Not found"
          , amount := "Not found" } := by
    unfold extract_sample_transaction
    rw [h]
  cases hf : findall true fallbackPat t.data with
  | nil =>
    rw [hf] at he
    refine ⟨by rw [he], ?_, fun _ => he⟩
    intro cp hcp
    simp at hcp
  | cons cp0 rest =>
    rw [hf] at he
    refine ⟨by rw [he], ?_, ?_⟩
    · intro cp hcp
      simp only [List.head?_cons, Option.some.injEq] at hcp
      subst hcp
      exact he
    · intro hh
      simp at hh

/-- Witness for C5 at the text `zzz`, where both grammars find nothing. -/
theorem c5_witness :
    extract_transactions "zzz" = [] ∧
      (extract_sample_transaction "zzz").type = none ∧
      extract_sample_transaction "zzz" =
        { date := "Not found", type := none, description := "Not found"
        , amount := "Not found" } :=
  ⟨by decide, (c5_fallback_and_placeholder "zzz" (by decide)).1,
   (c5_fallback_and_placeholder "zzz" (by decide)).2.2 (by decide)⟩

/-- C6: an absent text (the extraction step failed) and an empty text both
make `parse_statement` return the failure signal `None` without building any
record. -/
theorem c6_empty_text_no_record :
    parse_statement none = none ∧ parse_statement (some "") = none := by
  constructor <;> decide

/-- C7 (counterexample): two texts differing only in letter case (the second
is the lower-casing of the first) give different extraction results: the
primary transaction grammar is matched case-sensitively (the source calls
`re.findall` without `re.IGNORECASE`), so the lower-cased `debit` line is
not matched or counted while the upper-cased one is. -/
theorem c7_counterexample :
    String.mk (lowerL "01-Jan-2024 DEBIT A 1") = "01-jan-2024 debit a 1" ∧
      (extract_transactions "01-Jan-2024 DEBIT A 1").length = 1 ∧
      (extract_transactions "01-jan-2024 debit a 1").length = 0 := by
  refine ⟨by decide, by decide, by decide⟩

/-- C7 (amended): the field-extraction rules and the fallback grammar are
applied with IGNORECASE, but the primary transaction grammar is matched
case-sensitively: its type token must be written exactly `DEBIT` or
`CREDIT`, so every counted transaction's type is one of those two uppercase
strings, and a line whose type token is lower-cased is not matched or
counted. -/
theorem c7_amended : ∀ (t : String) (tr : Transaction),
    tr ∈ extract_transactions t →
    tr.type = some "DEBIT" ∨ tr.type = some "CREDIT" :=
  fun t tr h => extract_transactions_type t tr h

/-- Witness for the amended C7 at a concrete one-line text. -/
theorem c7_amended_witness :
    ({ date := "01-Jan-2024", type := some "DEBIT", description := "A"
     , amount := "INR 1" } : Transaction) ∈
        extract_transactions "01-Jan-2024 DEBIT A 1" ∧
    (({ date := "01-Jan-2024", type := some "DEBIT", description := "A"
      , amount := "INR 1" } : Transaction).type = some "DEBIT" ∨
     ({ date := "01-Jan-2024", type := some "DEBIT", description := "A"
      , amount := "INR 1" } : Transaction).type = some "CREDIT") :=
  ⟨by decide, c7_amended "01-Jan-2024 DEBIT A 1"
    { date := "01-Jan-2024", type := some "DEBIT", description := "A"
    , amount := "INR 1" } (by decide)⟩

/-- C8 (counterexample): the name pattern is searched with IGNORECASE, so
its `[A-Z]` head also matches a lower-case letter: the text `name: john`
yields the customer name `john`, which does not begin with an uppercase
letter, refuting the claim's "capitalized phrase". -/
theorem c8_counterexample :
    (extract_customer_info "name: john\n").1 = some "john" ∧
      ("john" : String).data.head? = some 'j' ∧
      ¬('A' ≤ 'j' ∧ 'j' ≤ 'Z') := by
  refine ⟨by decide, by decide, by decide⟩

/-- C8 (amended): a produced customer name is nonempty, begins with an ASCII
letter of either case (the label pattern is matched case-insensitively), and
carries no trailing whitespace (it is stripped, and its first character is a
letter, hence not whitespace); a produced customer id is a nonempty string
of pure digits. -/
theorem c8_amended (t : String) :
    (∀ n, (extract_customer_info t).1 = some n →
      n ≠ "" ∧ (∃ h0 t2, n.data = h0 :: t2 ∧ isAsciiLetter h0 = true) ∧
        ∀ a, n.data.getLast? = some a → isPySpace a = false) ∧
    (∀ i, (extract_customer_info t).2 = some i →
      i ≠ "" ∧ ∀ ch ∈ i.data, isAsciiDigit ch = true) :=
  ⟨fun n hn => customer_name_shape t n hn, fun i hi => customer_id_shape t i hi⟩

/-- Witness for the amended C8 at a concrete labelled text. -/
theorem c8_amended_witness :
    ((extract_customer_info "Name: Ab\nCustomer ID: 12").1 = some "Ab") ∧
    (("Ab" : String) ≠ "" ∧
      (∃ h0 t2, ("Ab" : String).data = h0 :: t2 ∧ isAsciiLetter h0 = true) ∧
      ∀ a, ("Ab" : String).data.getLast? = some a → isPySpace a = false) ∧
    ((extract_customer_info "Name: Ab\nCustomer ID: 12").2 = some "12") ∧
    (("12" : String) ≠ "" ∧ ∀ ch ∈ ("12" : String).data, isAsciiDigit ch = true) :=
  ⟨by decide, (c8_amended "Name: Ab\nCustomer ID: 12").1 "Ab" (by decide),
   by decide, (c8_amended "Name: Ab\nCustomer ID: 12").2 "12" (by decide)⟩

/-- C9: the assembler is deterministic and referentially transparent — it is
a pure function of the input text, so two runs on equal inputs produce equal
records. -/
theorem c9_determinism (t1 t2 : Option String) (h : t1 = t2) :
    parse_statement t1 = parse_statement t2 := by
  rw [h]

/-- Witness for C9 at a concrete input. -/
theorem c9_witness :
    (some "a" = some "a") ∧
      parse_statement (some "a") = parse_statement (some "a") :=
  ⟨rfl, c9_determinism (some "a") (some "a") rfl⟩

/-- C10: the `upto` token of the date-range rule is optional: the text
`date range: 15 Mar 2024` contains no occurrence of `upto` (checked on the
lower-cased text) yet still renders as `Upto 15 Mar 2024`. -/
theorem c10_upto_optional :
    extract_statement_period "date range: 15 Mar 2024" = "Upto 15 Mar 2024" ∧
      subIn "upto".data (lowerL "date range: 15 Mar 2024") = false := by
  constructor <;> decide
